import Mathlib

/-!
Shallow embedding of the diagnostic-extraction pipeline of the
vscode-languageserver-perl6 repository.

The repository ships two near-duplicate copies of the language server:
one in `src/server/src/server.ts` (functions `parse_undeclared`,
`parse_missing_libs`, `parse_generic_single`, `parse_generics`,
`parseErrorMessage`) and one embedded in `src/client/package.json`
(functions `parseUndeclared`, `parseMissingLibs`, `parseGenerics`,
`parseErrorMessage`).  Both are embedded below, in namespaces `Server`
and `Client`.  The copies agree on everything except the generic-error
branch: the server copy loops over every generic block and has no
fallback, while the client copy handles only the first generic block and
falls back to a single line-0 diagnostic.

Strings are modelled as `List Char`.  The four JavaScript regular
expressions of the source are embedded as deterministic matching
functions; each one is derived from the concrete pattern by resolving
the (finite) backtracking behaviour of the JS engine on that pattern:
greedy `\S+`, `\d+`, `\s+` runs are maximal runs of their character
class (shortening them can never help, because the following literal
starts with a character outside the class), `.` never matches `'\n'` or
`'\r'` (JS line terminators), and leftmost matching is a scan over all
suffixes.  JS `\s` also contains some exotic Unicode spaces which are
irrelevant to every claim; the embedding uses the ASCII part.
-/

/-- vscode-languageserver `DiagnosticSeverity`; the source only ever uses
`Error`. -/
inductive Severity where
  | Error
  | Warning
  | Information
  | Hint
deriving DecidableEq, Repr

/-- One LSP diagnostic, with the `range` record of the source flattened
into four fields (`range.start.line`, `range.start.character`,
`range.end.line`, `range.end.character`).  Lines are `Int` because the
source computes `+m[k] - 1` without any clamping. -/
structure Diagnostic where
  severity : Severity
  startLine : Int
  startChar : Nat
  endLine : Int
  endChar : Nat
  message : List Char
  source : List Char
deriving DecidableEq, Repr

/-- JS line terminators for `.` (which matches neither `\n` nor `\r`). -/
def notTerm (c : Char) : Bool := c ≠ '\n' && c ≠ '\r'

/-- The ASCII part of JS `\s`. -/
def isSpaceJS (c : Char) : Bool :=
  c = ' ' || c = '\t' || c = '\n' || c = '\r' || c = '\x0b' || c = '\x0c'

/-- JS `+"123"` on a digit string (decimal). -/
def digitsToNat (l : List Char) : Nat :=
  l.foldl (fun n c => n * 10 + (c.toNat - 48)) 0

/-- If `p` is a prefix of `l`, return the remainder of `l`. -/
def dropPrefixQ : List Char → List Char → Option (List Char)
  | [], l => some l
  | _ :: _, [] => none
  | p :: ps, c :: cs => if p = c then dropPrefixQ ps cs else none

/-- JS `String.prototype.split(/\r?\n/g)`: split on `"\r\n"` or `"\n"`;
a lone `'\r'` is not a separator. -/
def splitRN : List Char → List (List Char)
  | [] => [[]]
  | '\r' :: '\n' :: rest => [] :: splitRN rest
  | '\n' :: rest => [] :: splitRN rest
  | c :: rest =>
    match splitRN rest with
    | [] => [[c]]
    | l :: ls => (c :: l) :: ls

def atL : List Char := "at ".data
def arrowL : List Char := "------> ".data
def bannerL : List Char := "===SORRY".data
def usedAtL : List Char := " used at line ".data
def couldL : List Char := "Could not find ".data
def atLineL : List Char := " at line ".data
def inColonL : List Char := " in:".data
def undeclaredL : List Char := "Undeclared ".data
def perlL : List Char := "perl6".data

/-- One line of an undeclared-identifiers list, i.e. the regex
`/^\s+(\S+) used at line (\d+)(.*)$/` applied to a single line (which
contains no `'\n'` but may contain a lone `'\r'`; `(.*)$` fails if it
does, since `.` cannot match `'\r'`).  Returns `(name, digits, advice)`. -/
def matchUndeclLine (l : List Char) : Option (List Char × List Char × List Char) :=
  match l.takeWhile isSpaceJS with
  | [] => none
  | _ :: _ =>
    let r1 := l.dropWhile isSpaceJS
    match r1.takeWhile (fun c => !isSpaceJS c) with
    | [] => none
    | name =>
      match dropPrefixQ usedAtL (r1.dropWhile (fun c => !isSpaceJS c)) with
      | none => none
      | some r3 =>
        match r3.takeWhile Char.isDigit with
        | [] => none
        | dd =>
          let advice := r3.dropWhile Char.isDigit
          if advice.contains '\r' then none else some (name, dd, advice)

/-- The diagnostic pushed for one matched undeclared-list line. -/
def undeclDiag (ty name dd advice : List Char) : Diagnostic :=
  { severity := .Error
    startLine := (digitsToNat dd : Int) - 1
    startChar := 0
    endLine := (digitsToNat dd : Int) - 1
    endChar := 1000
    message := ty ++ " ".data ++ name ++ " is not declared".data ++ advice
    source := perlL }

/-- The `for`/`break` loop shared by `parse_undeclared` (server) and
`parseUndeclared` (client): walk the split lines, push one diagnostic
per matching line, stop at the first non-matching line. -/
def undeclaredGo (ty : List Char) : List (List Char) → List Diagnostic → List Diagnostic
  | [], diags => diags
  | line :: rest, diags =>
    match matchUndeclLine line with
    | some (name, dd, advice) =>
      undeclaredGo ty rest (diags ++ [undeclDiag ty name dd advice])
    | none => diags

/-- Match of `/Could not find (\S+) at line (\d+) in:[\r\n]([\s\S]+)/`
anchored at the head of `l`.  Returns `(lib, digits, paths)`. -/
def matchMissingAt (l : List Char) : Option (List Char × List Char × List Char) :=
  match dropPrefixQ couldL l with
  | none => none
  | some r1 =>
    match r1.takeWhile (fun c => !isSpaceJS c) with
    | [] => none
    | lib =>
      match dropPrefixQ atLineL (r1.dropWhile (fun c => !isSpaceJS c)) with
      | none => none
      | some r2 =>
        match r2.takeWhile Char.isDigit with
        | [] => none
        | dd =>
          match dropPrefixQ inColonL (r2.dropWhile Char.isDigit) with
          | none => none
          | some r3 =>
            match r3 with
            | '\r' :: rest => if rest.isEmpty then none else some (lib, dd, rest)
            | '\n' :: rest => if rest.isEmpty then none else some (lib, dd, rest)
            | _ => none

/-- Leftmost match of the missing-library regex: scan all suffixes. -/
def scanMissing : List Char → Option (List Char × List Char × List Char)
  | [] => none
  | c :: rest =>
    match matchMissingAt (c :: rest) with
    | some r => some r
    | none => scanMissing rest

/-- Match of `/Undeclared <word>s?:\r?\n([\s\S]+)/` anchored at the head
of `l`; returns the (non-empty) capture after the newline. -/
def matchHdrAt (word : List Char) (l : List Char) : Option (List Char) :=
  match dropPrefixQ (undeclaredL ++ word) l with
  | none => none
  | some t =>
    match t with
    | 's' :: ':' :: '\r' :: '\n' :: (v : List Char) => if v.isEmpty then none else some v
    | 's' :: ':' :: '\n' :: (v : List Char) => if v.isEmpty then none else some v
    | ':' :: '\r' :: '\n' :: (v : List Char) => if v.isEmpty then none else some v
    | ':' :: '\n' :: (v : List Char) => if v.isEmpty then none else some v
    | _ => none

/-- Leftmost match of the undeclared-header regex. -/
def scanHdr (word : List Char) : List Char → Option (List Char)
  | [] => none
  | c :: rest =>
    match matchHdrAt word (c :: rest) with
    | some r => some r
    | none => scanHdr word rest

/-- Match of the banner regex `/===SORRY.*\r?\n/` anchored at the head
of `l`; returns the length of the matched substring. -/
def matchBannerAt (l : List Char) : Option Nat :=
  match dropPrefixQ bannerL l with
  | none => none
  | some t =>
    let body := t.takeWhile notTerm
    match t.dropWhile notTerm with
    | '\r' :: '\n' :: _ => some (8 + body.length + 2)
    | '\n' :: _ => some (8 + body.length + 1)
    | _ => none

/-- JS `msg.replace(/===SORRY.*\r?\n/, "")`: delete the leftmost match
of the banner regex, if any. -/
def stripBannerGo : List Char → List Char
  | [] => []
  | c :: rest =>
    match matchBannerAt (c :: rest) with
    | some n => (c :: rest).drop n
    | none => c :: stripBannerGo rest

def stripBanner (l : List Char) : List Char := stripBannerGo l

/-- Greedy `\r?\n`: consume `"\r\n"` or `"\n"`, returning the number of
characters consumed and the rest; fail on anything else (a lone `'\r'`
cannot be completed, and shortening `\r?` never helps). -/
def nlSplit : List Char → Option (Nat × List Char)
  | [] => none
  | c1 :: rest =>
    if c1 = '\n' then some (1, rest)
    else if c1 = '\r' then
      match rest with
      | [] => none
      | c2 :: rest2 => if c2 = '\n' then some (2, rest2) else none
    else none

/-- Shift the `.*?` length of a `findColon` result by one consumed
character. -/
def shiftFC (r : Nat × List Char × Nat × List Char) : Nat × List Char × Nat × List Char :=
  (r.1 + 1, r.2.1, r.2.2.1, r.2.2.2)

/-- One lazy stop of `.*?` at a `':'`: succeeds iff `(\d+)\r?\n------> `
matches right after the colon. -/
def colonAttempt (t : List Char) : Option (Nat × List Char × Nat × List Char) :=
  match t.takeWhile Char.isDigit with
  | [] => none
  | dd =>
    match nlSplit (t.dropWhile Char.isDigit) with
    | none => none
    | some (nl2, w) =>
      match dropPrefixQ arrowL w with
      | none => none
      | some w2 => some (0, dd, nl2, w2)

/-- The `at .*?:(\d+)\r?\n------> ` part of the generic-block regexes:
lazily scan for the first `':'` whose `colonAttempt` succeeds; `.*?`
cannot cross a line terminator.  Returns `(k, digits, nlLen, rest)`
where `k` is the number of characters consumed by `.*?`, `nlLen` the
terminator length and `rest` what follows `"------> "`. -/
def findColon : List Char → Option (Nat × List Char × Nat × List Char)
  | [] => none
  | c :: t =>
    if c = ':' then
      match colonAttempt t with
      | some r => some r
      | none => (findColon t).map shiftFC
    else if notTerm c then (findColon t).map shiftFC
    else none

/-- Match of `/(.*)\r?\nat .*?:(\d+)\r?\n------> (.*)/` anchored at the
head of `l`.  Returns `(finding, digits, context, matchLen)` where
`matchLen` is the length of `m[0]`. -/
def matchGenericAt (l : List Char) : Option (List Char × List Char × List Char × Nat) :=
  let finding := l.takeWhile notTerm
  match nlSplit (l.dropWhile notTerm) with
  | none => none
  | some (nl1, r2) =>
    match dropPrefixQ atL r2 with
    | none => none
    | some r3 =>
      match findColon r3 with
      | none => none
      | some (k, dd, nl2, w) =>
        let ctx := w.takeWhile notTerm
        some (finding, dd, ctx,
          finding.length + nl1 + 3 + (k + 1 + dd.length + nl2) + 8 + ctx.length)

/-- Leftmost match of the generic-block regex: the first component is
the start index of the match in `l`. -/
def scanGeneric : List Char → Option (Nat × List Char × List Char × List Char × Nat)
  | [] => none
  | c :: rest =>
    match matchGenericAt (c :: rest) with
    | some (f, dd, ctx, len) => some (0, f, dd, ctx, len)
    | none =>
      (scanGeneric rest).map (fun r => (r.1 + 1, r.2.1, r.2.2.1, r.2.2.2.1, r.2.2.2.2))

namespace Server

/-- server.ts `parse_undeclared`. -/
def parse_undeclared (ty lines : List Char) (diagnostics : List Diagnostic) : List Diagnostic :=
  undeclaredGo ty (splitRN lines) diagnostics

/-- server.ts `parse_missing_libs` (receives the regex captures). -/
def parse_missing_libs (missing_lib dd lib_paths : List Char)
    (diagnostics : List Diagnostic) : List Diagnostic :=
  diagnostics ++
    [{ severity := .Error
       startLine := (digitsToNat dd : Int) - 1
       startChar := 0
       endLine := (digitsToNat dd : Int) - 1
       endChar := 1000
       message := couldL ++ missing_lib ++ " in:\n".data ++ lib_paths
       source := perlL }]

/-- server.ts `parse_generic_single`: re-run the capturing generic regex
on one extracted block and push a diagnostic.  (In JS a failed match
would throw on `m[1]`; that path is unreachable from `parse_generics`.) -/
def parse_generic_single (msg : List Char) (diagnostics : List Diagnostic) : List Diagnostic :=
  match scanGeneric msg with
  | some (_, finding, dd, _, _) =>
    diagnostics ++
      [{ severity := .Error
         startLine := (digitsToNat dd : Int) - 1
         startChar := 0
         endLine := (digitsToNat dd : Int) - 1
         endChar := 1000
         message := finding
         source := perlL }]
  | none => diagnostics

/-- The `while` loop of server.ts `parse_generics`: repeatedly take the
leftmost generic-block match, feed the matched substring to
`parse_generic_single` and cut `m[0].length` characters off the front of
the text.  Structural recursion over a fuel argument; every iteration
consumes at least one character of `text`, so `text.length` fuel is
always enough (`pgLoopF_fuelIrrel` below). -/
def pgLoopF : Nat → List Char → List Diagnostic → List Diagnostic
  | 0, _, diags => diags
  | fuel + 1, text, diags =>
    match scanGeneric text with
    | none => diags
    | some (s, _, _, _, len) =>
      pgLoopF fuel (text.drop len) (parse_generic_single ((text.drop s).take len) diags)

/-- server.ts `parse_generics`. -/
def parse_generics (msg : List Char) (diagnostics : List Diagnostic) : List Diagnostic :=
  pgLoopF (stripBanner msg).length (stripBanner msg) diagnostics

/-- server.ts `parseErrorMessage`. -/
def parseErrorMessage (msg : List Char) (diagnostics : List Diagnostic) : List Diagnostic :=
  match scanMissing msg with
  | some (lib, dd, paths) => parse_missing_libs lib dd paths diagnostics
  | none =>
    let diags1 :=
      match scanHdr "name".data msg with
      | some cap => parse_undeclared "name".data cap diagnostics
      | none => diagnostics
    match scanHdr "routine".data msg with
    | some cap => parse_undeclared "routine".data cap diags1
    | none => parse_generics msg diags1

end Server

namespace Client

/-- client-bundle `parseUndeclared` (same body as the server copy). -/
def parseUndeclared (ty lines : List Char) (diagnostics : List Diagnostic) : List Diagnostic :=
  undeclaredGo ty (splitRN lines) diagnostics

/-- client-bundle `parseMissingLibs` (same body as the server copy). -/
def parseMissingLibs (missing_lib dd lib_paths : List Char)
    (diagnostics : List Diagnostic) : List Diagnostic :=
  diagnostics ++
    [{ severity := .Error
       startLine := (digitsToNat dd : Int) - 1
       startChar := 0
       endLine := (digitsToNat dd : Int) - 1
       endChar := 1000
       message := couldL ++ missing_lib ++ " in:\n".data ++ lib_paths
       source := perlL }]

/-- client-bundle `parseGenerics`: only the first generic-block match is
used; if there is none, a single line-0 diagnostic carrying the whole
(banner-stripped) text is pushed. -/
def parseGenerics (msg : List Char) (diagnostics : List Diagnostic) : List Diagnostic :=
  let text := stripBanner msg
  match scanGeneric text with
  | some (_, finding, dd, _, _) =>
    diagnostics ++
      [{ severity := .Error
         startLine := (digitsToNat dd : Int) - 1
         startChar := 0
         endLine := (digitsToNat dd : Int) - 1
         endChar := 1000
         message := finding
         source := perlL }]
  | none =>
    diagnostics ++
      [{ severity := .Error
         startLine := 0
         startChar := 0
         endLine := 0
         endChar := 1000
         message := text
         source := perlL }]

/-- client-bundle `parseErrorMessage`. -/
def parseErrorMessage (msg : List Char) (diagnostics : List Diagnostic) : List Diagnostic :=
  match scanMissing msg with
  | some (lib, dd, paths) => parseMissingLibs lib dd paths diagnostics
  | none =>
    let diags1 :=
      match scanHdr "name".data msg with
      | some cap => parseUndeclared "name".data cap diagnostics
      | none => diagnostics
    match scanHdr "routine".data msg with
    | some cap => parseUndeclared "routine".data cap diags1
    | none => parseGenerics msg diags1

end Client

/-! ### Generic list helpers -/

theorem takeWhile_append_all {p : Char → Bool} :
    ∀ {u : List Char} (z : List Char), u.all p = true →
      (u ++ z).takeWhile p = u ++ z.takeWhile p := by
  intro u
  induction u with
  | nil => intro z _; rfl
  | cons c u ih =>
    intro z h
    simp only [List.all_cons, Bool.and_eq_true] at h
    simp only [List.cons_append, List.takeWhile_cons_of_pos h.1, ih z h.2]

theorem dropWhile_append_all {p : Char → Bool} :
    ∀ {u : List Char} (z : List Char), u.all p = true →
      (u ++ z).dropWhile p = z.dropWhile p := by
  intro u
  induction u with
  | nil => intro z _; rfl
  | cons c u ih =>
    intro z h
    simp only [List.all_cons, Bool.and_eq_true] at h
    simp only [List.cons_append, List.dropWhile_cons_of_pos h.1, ih z h.2]

theorem dropWhile_append_firstViol {p : Char → Bool} :
    ∀ {u : List Char} (z : List Char), u.all p = false →
      ∃ ch w, (u ++ z).dropWhile p = ch :: w ∧ p ch = false ∧ ch ∈ u := by
  intro u
  induction u with
  | nil => intro z h; simp [List.all_nil] at h
  | cons c u ih =>
    intro z h
    by_cases hc : p c = true
    · simp only [List.all_cons, hc, Bool.true_and] at h
      obtain ⟨ch, w, hd, hp, hm⟩ := ih z h
      exact ⟨ch, w, by simp [List.cons_append, List.dropWhile_cons_of_pos hc, hd],
        hp, List.mem_cons_of_mem _ hm⟩
    · refine ⟨c, u ++ z, ?_, by simpa using hc, List.mem_cons_self _ _⟩
      simp [List.cons_append, List.dropWhile_cons_of_neg hc]

theorem dropPrefixQ_append : ∀ (p r : List Char), dropPrefixQ p (p ++ r) = some r := by
  intro p
  induction p with
  | nil => intro r; rfl
  | cons c p ih => intro r; simp [dropPrefixQ, ih r]

/-! ### Facts about the literal character lists -/

theorem atL_eq : atL = ['a', 't', ' '] := rfl

theorem arrowL_eq : arrowL = ['-', '-', '-', '-', '-', '-', '>', ' '] := rfl

theorem notTerm_nl : notTerm '\n' = false := rfl

theorem notTerm_cr : notTerm '\r' = false := rfl

theorem notTerm_false_elim {c : Char} (h : notTerm c = false) : c = '\n' ∨ c = '\r' := by
  by_cases h1 : c = '\n'
  · exact Or.inl h1
  · by_cases h2 : c = '\r'
    · exact Or.inr h2
    · simp [notTerm, h1, h2] at h

/-- `"------> "` never starts with the `'a'` of an `"at "` line. -/
theorem dropPrefixQ_arrow_at (x : List Char) : dropPrefixQ arrowL (atL ++ x) = none := by
  rw [arrowL_eq, atL_eq]
  simp [dropPrefixQ]

/-! ### Structure lemmas for the generic-block matcher -/

theorem colonAttempt_structured {d : List Char} (z : List Char)
    (hd : d ≠ []) (hdd : d.all Char.isDigit = true) :
    colonAttempt (d ++ '\n' :: (arrowL ++ z)) = some (0, d, 1, z) := by
  obtain ⟨d0, d', rfl⟩ : ∃ d0 d', d = d0 :: d' := by
    cases d with
    | nil => exact absurd rfl hd
    | cons a b => exact ⟨a, b, rfl⟩
  have htw : List.takeWhile Char.isDigit (d0 :: (d' ++ '\n' :: (arrowL ++ z))) = d0 :: d' := by
    rw [← List.cons_append, takeWhile_append_all _ hdd,
      List.takeWhile_cons_of_neg (by decide), List.append_nil]
  have hdw : List.dropWhile Char.isDigit (d0 :: (d' ++ '\n' :: (arrowL ++ z))) =
      '\n' :: (arrowL ++ z) := by
    rw [← List.cons_append, dropWhile_append_all _ hdd, List.dropWhile_cons_of_neg (by decide)]
  simp [colonAttempt, htw, hdw, nlSplit, dropPrefixQ_append]

theorem colonAttempt_none_of_head {t : List Char} {ch : Char} {w : List Char}
    (h : t.dropWhile Char.isDigit = ch :: w) (h1 : ch ≠ '\n') (h2 : ch ≠ '\r') :
    colonAttempt t = none := by
  have hns : nlSplit (ch :: w) = none := by simp [nlSplit, h1, h2]
  cases htw : t.takeWhile Char.isDigit with
  | nil => simp [colonAttempt, htw]
  | cons a l => simp [colonAttempt, htw, h, hns]

theorem colonAttempt_none_arrow {t v : List Char}
    (h : t.dropWhile Char.isDigit = '\n' :: v) (ha : dropPrefixQ arrowL v = none) :
    colonAttempt t = none := by
  have hns : nlSplit ('\n' :: v) = some (1, v) := by simp [nlSplit]
  cases htw : t.takeWhile Char.isDigit with
  | nil => simp [colonAttempt, htw]
  | cons a l => simp [colonAttempt, htw, h, hns, ha]

theorem findColon_structured :
    ∀ (file : List Char) {d : List Char} (z : List Char),
      file.all notTerm = true → d ≠ [] → d.all Char.isDigit = true →
      findColon (file ++ ':' :: (d ++ '\n' :: (arrowL ++ z))) =
        some (file.length, d, 1, z) := by
  intro file
  induction file with
  | nil =>
    intro d z _ hd hdd
    simp [findColon, colonAttempt_structured z hd hdd]
  | cons c file ih =>
    intro d z hall hd hdd
    simp only [List.all_cons, Bool.and_eq_true] at hall
    have hattempt : colonAttempt (file ++ ':' :: (d ++ '\n' :: (arrowL ++ z))) = none := by
      by_cases hfd : file.all Char.isDigit = true
      · refine @colonAttempt_none_of_head _ ':' (d ++ '\n' :: (arrowL ++ z))
          ?_ (by decide) (by decide)
        rw [dropWhile_append_all _ hfd, List.dropWhile_cons_of_neg (by decide)]
      · obtain ⟨ch, w, hdw, hp, hm⟩ :=
          dropWhile_append_firstViol (':' :: (d ++ '\n' :: (arrowL ++ z)))
            (by simpa using hfd)
        have hch : notTerm ch = true := (List.all_eq_true.mp hall.2) ch hm
        refine colonAttempt_none_of_head hdw (fun hq => ?_) (fun hq => ?_)
        · rw [hq] at hch; exact absurd hch (by decide)
        · rw [hq] at hch; exact absurd hch (by decide)
    by_cases hc : c = ':'
    · subst hc
      simp [findColon, hattempt, ih z hall.2 hd hdd, shiftFC]
    · simp [findColon, hc, hall.1, hattempt, ih z hall.2 hd hdd, shiftFC]

theorem findColon_blocked :
    ∀ (u : List Char) {v : List Char}, u.all notTerm = true →
      dropPrefixQ arrowL v = none → findColon (u ++ '\n' :: v) = none := by
  intro u
  induction u with
  | nil =>
    intro v _ _
    simp [findColon, notTerm]
  | cons c u ih =>
    intro v hall ha
    simp only [List.all_cons, Bool.and_eq_true] at hall
    have hattempt : colonAttempt (u ++ '\n' :: v) = none := by
      by_cases hud : u.all Char.isDigit = true
      · refine colonAttempt_none_arrow ?_ ha
        rw [dropWhile_append_all _ hud, List.dropWhile_cons_of_neg (by decide)]
      · obtain ⟨ch, w, hdw, hp, hm⟩ :=
          dropWhile_append_firstViol ('\n' :: v) (by simpa using hud)
        have hch : notTerm ch = true := (List.all_eq_true.mp hall.2) ch hm
        refine colonAttempt_none_of_head hdw (fun hq => ?_) (fun hq => ?_)
        · rw [hq] at hch; exact absurd hch (by decide)
        · rw [hq] at hch; exact absurd hch (by decide)
    by_cases hc : c = ':'
    · subst hc
      simp [findColon, hattempt, ih hall.2 ha]
    · simp [findColon, hc, hall.1, hattempt, ih hall.2 ha]

/-- One well-formed generic error block, as a character list. -/
def blockL (f file d c : List Char) : List Char :=
  f ++ '\n' :: (atL ++ (file ++ ':' :: (d ++ '\n' :: (arrowL ++ c))))

theorem blockL_length (f file d c : List Char) :
    (blockL f file d c).length = f.length + file.length + d.length + c.length + 14 := by
  simp [blockL, atL_eq, arrowL_eq]
  omega

theorem blockL_append (f file d c rest : List Char) :
    blockL f file d c ++ rest = blockL f file d (c ++ rest) := by
  simp [blockL]

theorem dropPrefixQ_cons_some {p : Char} {ps l r : List Char}
    (h : dropPrefixQ (p :: ps) l = some r) :
    ∃ t, l = p :: t ∧ dropPrefixQ ps t = some r := by
  cases l with
  | nil => simp [dropPrefixQ] at h
  | cons c cs =>
    by_cases hpc : p = c
    · subst hpc
      simp only [dropPrefixQ, if_pos rfl] at h
      exact ⟨cs, rfl, h⟩
    · simp only [dropPrefixQ, if_neg hpc] at h
      exact Option.noConfusion h

/-- Splitting `dropPrefixQ atL` over a terminator-free prefix: the
`"at "` literal cannot overlap the `'\n'`, so the remainder keeps the
`'\n' :: v` tail. -/
theorem dropPrefixQ_atL_split :
    ∀ (f2 : List Char) {v r3 : List Char},
      dropPrefixQ atL (f2 ++ '\n' :: v) = some r3 →
      ∃ f2t, r3 = f2t ++ '\n' :: v ∧ ∀ ch ∈ f2t, ch ∈ f2 := by
  intro f2 v r3 h
  rw [atL_eq] at h
  obtain ⟨t1, ht1, h1⟩ := dropPrefixQ_cons_some h
  cases f2 with
  | nil => exact absurd ht1 (by simp)
  | cons a f2 =>
  rw [List.cons_append] at ht1
  injection ht1 with ha ht1
  subst ht1
  obtain ⟨t2, ht2, h2⟩ := dropPrefixQ_cons_some h1
  cases f2 with
  | nil => exact absurd ht2 (by simp)
  | cons b f2 =>
  rw [List.cons_append] at ht2
  injection ht2 with hb ht2
  subst ht2
  obtain ⟨t3, ht3, h3⟩ := dropPrefixQ_cons_some h2
  cases f2 with
  | nil => exact absurd ht3 (by simp)
  | cons e f2 =>
  rw [List.cons_append] at ht3
  injection ht3 with he ht3
  subst ht3
  simp only [dropPrefixQ, Option.some.injEq] at h3
  exact ⟨f2, h3.symm, fun ch hm => by simp [hm]⟩

theorem matchGenericAt_structured {f file d c : List Char} (rest : List Char)
    (hf : f.all notTerm = true) (hfile : file.all notTerm = true)
    (hc : c.all notTerm = true) (hd : d ≠ []) (hdd : d.all Char.isDigit = true)
    (hrest : rest = [] ∨ ∃ r, rest = '\n' :: r) :
    matchGenericAt (blockL f file d (c ++ rest)) =
      some (f, d, c, (blockL f file d c).length) := by
  have htw : (blockL f file d (c ++ rest)).takeWhile notTerm = f := by
    rw [blockL, takeWhile_append_all _ hf, List.takeWhile_cons_of_neg (by decide),
      List.append_nil]
  have hdw : (blockL f file d (c ++ rest)).dropWhile notTerm =
      '\n' :: (atL ++ (file ++ ':' :: (d ++ '\n' :: (arrowL ++ (c ++ rest))))) := by
    rw [blockL, dropWhile_append_all _ hf, List.dropWhile_cons_of_neg (by decide)]
  have hctx : (c ++ rest).takeWhile notTerm = c := by
    rcases hrest with h | ⟨r, h⟩
    · rw [h, List.append_nil]
      rw [← List.append_nil c, takeWhile_append_all _ hc]
      simp
    · rw [h, takeWhile_append_all _ hc, List.takeWhile_cons_of_neg (by decide),
        List.append_nil]
  have hns : nlSplit ('\n' :: (atL ++ (file ++ ':' :: (d ++ '\n' :: (arrowL ++ (c ++ rest)))))) =
      some (1, atL ++ (file ++ ':' :: (d ++ '\n' :: (arrowL ++ (c ++ rest))))) := by
    simp [nlSplit]
  rw [matchGenericAt]
  simp only [htw, hdw, hns, dropPrefixQ_append,
    findColon_structured file (c ++ rest) hfile hd hdd, hctx,
    Option.some.injEq, Prod.mk.injEq, blockL_length]
  refine ⟨trivial, trivial, trivial, ?_⟩
  omega

theorem matchGenericAt_nil : matchGenericAt [] = none := rfl

theorem scanGeneric_of_matchAt {l : List Char} {f dd c : List Char} {len : Nat}
    (h : matchGenericAt l = some (f, dd, c, len)) :
    scanGeneric l = some (0, f, dd, c, len) := by
  cases l with
  | nil => rw [matchGenericAt_nil] at h; exact absurd h (by simp)
  | cons x t => simp [scanGeneric, h]

/-- An attempt that starts on the `'\n'` separating two blocks fails:
its empty finding is followed by the next block's finding line, and any
colon stop inside that line runs into the `"at "` line, which does not
start with `"------> "`. -/
theorem matchGenericAt_sepNl_none {f2 : List Char} (x : List Char)
    (hf2 : f2.all notTerm = true) :
    matchGenericAt ('\n' :: (f2 ++ '\n' :: (atL ++ x))) = none := by
  have harr : dropPrefixQ arrowL (atL ++ x) = none := dropPrefixQ_arrow_at x
  have htw : ('\n' :: (f2 ++ '\n' :: (atL ++ x))).takeWhile notTerm = [] :=
    List.takeWhile_cons_of_neg (by decide)
  have hdw : ('\n' :: (f2 ++ '\n' :: (atL ++ x))).dropWhile notTerm =
      '\n' :: (f2 ++ '\n' :: (atL ++ x)) :=
    List.dropWhile_cons_of_neg (by decide)
  have hns : nlSplit ('\n' :: (f2 ++ '\n' :: (atL ++ x))) =
      some (1, f2 ++ '\n' :: (atL ++ x)) := by simp [nlSplit]
  rw [matchGenericAt]
  simp only [htw, hdw, hns]
  cases hpre : dropPrefixQ atL (f2 ++ '\n' :: (atL ++ x)) with
  | none => simp [hpre]
  | some r3 =>
    obtain ⟨f2t, hr3, hsub⟩ := dropPrefixQ_atL_split f2 hpre
    have hblk : findColon r3 = none := by
      rw [hr3]
      refine findColon_blocked f2t ?_ harr
      exact List.all_eq_true.mpr fun ch hm => (List.all_eq_true.mp hf2) ch (hsub ch hm)
    simp [hpre, hblk]

/-! ### Positivity and fuel lemmas for the server generic loop -/

theorem matchGenericAt_len_pos {l : List Char} {r : List Char × List Char × List Char × Nat}
    (h : matchGenericAt l = some r) : 1 ≤ r.2.2.2 := by
  simp only [matchGenericAt] at h
  cases hns : nlSplit (l.dropWhile notTerm) with
  | none => rw [hns] at h; exact Option.noConfusion h
  | some p =>
    obtain ⟨nl1, r2⟩ := p
    simp only [hns] at h
    cases hpre : dropPrefixQ atL r2 with
    | none => simp only [hpre] at h; exact Option.noConfusion h
    | some r3 =>
      cases hfc : findColon r3 with
      | none => simp only [hpre, hfc] at h; exact Option.noConfusion h
      | some q =>
        obtain ⟨k, dd2, nl2, w⟩ := q
        simp only [hpre, hfc, Option.some.injEq] at h
        subst h
        simp only []
        omega

theorem scanGeneric_nil : scanGeneric [] = none := rfl

theorem scanGeneric_len_pos :
    ∀ {l : List Char} {r : Nat × List Char × List Char × List Char × Nat},
      scanGeneric l = some r → 1 ≤ r.2.2.2.2 := by
  intro l
  induction l with
  | nil => intro r h; exact Option.noConfusion h
  | cons x t ih =>
    intro r h
    simp only [scanGeneric] at h
    cases hm : matchGenericAt (x :: t) with
    | some q =>
      obtain ⟨f, dd, c, len⟩ := q
      rw [hm] at h
      simp only [Option.some.injEq] at h
      subst h
      exact matchGenericAt_len_pos hm
    | none =>
      rw [hm] at h
      cases hs : scanGeneric t with
      | none => rw [hs] at h; exact Option.noConfusion h
      | some q =>
        rw [hs] at h
        simp only [Option.map_some', Option.some.injEq] at h
        subst h
        simpa using ih hs

namespace Server

theorem pgLoopF_nil : ∀ (fuel : Nat) (diags : List Diagnostic),
    pgLoopF fuel [] diags = diags := by
  intro fuel diags
  cases fuel with
  | zero => rfl
  | succ f => simp [pgLoopF, scanGeneric_nil]

theorem pgLoopF_fuelIrrel :
    ∀ (f1 : Nat) (f2 : Nat) (text : List Char) (diags : List Diagnostic),
      text.length ≤ f1 → text.length ≤ f2 →
      pgLoopF f1 text diags = pgLoopF f2 text diags := by
  intro f1
  induction f1 with
  | zero =>
    intro f2 text diags h1 _
    have : text = [] := List.length_eq_zero.mp (Nat.le_zero.mp h1)
    subst this
    rw [pgLoopF_nil, pgLoopF_nil]
  | succ f1 ih =>
    intro f2 text diags h1 h2
    cases f2 with
    | zero =>
      have : text = [] := List.length_eq_zero.mp (Nat.le_zero.mp h2)
      subst this
      rw [pgLoopF_nil, pgLoopF_nil]
    | succ f2 =>
      simp only [pgLoopF]
      cases hs : scanGeneric text with
      | none => rfl
      | some r =>
        obtain ⟨s, f, dd, c, len⟩ := r
        have hlen : 1 ≤ len := scanGeneric_len_pos hs
        have hb1 : (text.drop len).length ≤ f1 := by
          rw [List.length_drop]; omega
        have hb2 : (text.drop len).length ≤ f2 := by
          rw [List.length_drop]; omega
        exact ih f2 (text.drop len) _ hb1 hb2

/-- Unfold one iteration of the loop, normalising the fuel. -/
theorem pgLoopF_step {text : List Char} {fuel : Nat} (diags : List Diagnostic)
    (hf : text.length ≤ fuel) :
    pgLoopF fuel text diags =
      match scanGeneric text with
      | none => diags
      | some (s, _, _, _, len) =>
        pgLoopF (text.drop len).length (text.drop len)
          (parse_generic_single ((text.drop s).take len) diags) := by
  cases fuel with
  | zero =>
    have : text = [] := List.length_eq_zero.mp (Nat.le_zero.mp hf)
    subst this
    rw [pgLoopF_nil]
    simp [scanGeneric_nil]
  | succ f =>
    simp only [pgLoopF]
    cases hs : scanGeneric text with
    | none => rfl
    | some r =>
      obtain ⟨s, ff, dd, c, len⟩ := r
      have hlen : 1 ≤ len := scanGeneric_len_pos hs
      refine pgLoopF_fuelIrrel f (text.drop len).length (text.drop len) _ ?_ (le_refl _)
      rw [List.length_drop]; omega

end Server

/-! ### The extractor functions only append to the batch -/

theorem undeclaredGo_append (ty : List Char) :
    ∀ (ls : List (List Char)) (a b : List Diagnostic),
      undeclaredGo ty ls (a ++ b) = a ++ undeclaredGo ty ls b := by
  intro ls
  induction ls with
  | nil => intro a b; rfl
  | cons line rest ih =>
    intro a b
    cases hm : matchUndeclLine line with
    | none => simp [undeclaredGo, hm]
    | some p =>
      obtain ⟨name, dd, advice⟩ := p
      simp only [undeclaredGo, hm, List.append_assoc]
      exact ih a (b ++ [undeclDiag ty name dd advice])

theorem undeclaredGo_acc (ty : List Char) (ls : List (List Char)) (acc : List Diagnostic) :
    undeclaredGo ty ls acc = acc ++ undeclaredGo ty ls [] := by
  have h := undeclaredGo_append ty ls acc []
  rwa [List.append_nil] at h

namespace Server

theorem parse_undeclared_acc (ty lines : List Char) (acc : List Diagnostic) :
    parse_undeclared ty lines acc = acc ++ parse_undeclared ty lines [] :=
  undeclaredGo_acc ty (splitRN lines) acc

theorem parse_missing_libs_acc (lib dd paths : List Char) (acc : List Diagnostic) :
    parse_missing_libs lib dd paths acc = acc ++ parse_missing_libs lib dd paths [] := by
  simp [parse_missing_libs]

theorem parse_generic_single_acc (msg : List Char) (acc : List Diagnostic) :
    parse_generic_single msg acc = acc ++ parse_generic_single msg [] := by
  cases hs : scanGeneric msg with
  | none => simp [parse_generic_single, hs]
  | some r =>
    obtain ⟨s, f, dd, c, len⟩ := r
    simp [parse_generic_single, hs]

theorem pgLoopF_append :
    ∀ (fuel : Nat) (text : List Char) (a b : List Diagnostic),
      pgLoopF fuel text (a ++ b) = a ++ pgLoopF fuel text b := by
  intro fuel
  induction fuel with
  | zero => intro text a b; rfl
  | succ f ih =>
    intro text a b
    cases hs : scanGeneric text with
    | none => simp [pgLoopF, hs]
    | some r =>
      obtain ⟨s, ff, dd, c, len⟩ := r
      simp only [pgLoopF, hs]
      rw [parse_generic_single_acc _ (a ++ b), List.append_assoc,
        ← parse_generic_single_acc _ b]
      exact ih (text.drop len) a _

theorem pgLoopF_acc (fuel : Nat) (text : List Char) (acc : List Diagnostic) :
    pgLoopF fuel text acc = acc ++ pgLoopF fuel text [] := by
  have h := pgLoopF_append fuel text acc []
  rwa [List.append_nil] at h

theorem parse_generics_acc (msg : List Char) (acc : List Diagnostic) :
    parse_generics msg acc = acc ++ parse_generics msg [] :=
  pgLoopF_acc _ _ acc

theorem parseErrorMessage_acc (msg : List Char) (acc : List Diagnostic) :
    parseErrorMessage msg acc = acc ++ parseErrorMessage msg [] := by
  rw [parseErrorMessage, parseErrorMessage]
  cases hm : scanMissing msg with
  | some r =>
    obtain ⟨lib, dd, paths⟩ := r
    exact parse_missing_libs_acc lib dd paths acc
  | none =>
    cases hn : scanHdr "name".data msg with
    | some cap =>
      cases hr : scanHdr "routine".data msg with
      | some cap2 =>
        simp only []
        rw [parse_undeclared_acc _ _ acc, parse_undeclared_acc _ cap2 (acc ++ _),
          parse_undeclared_acc _ cap2 (parse_undeclared _ cap [])]
        simp [List.append_assoc]
      | none =>
        simp only []
        rw [parse_generics_acc _ (parse_undeclared _ cap acc),
          parse_undeclared_acc _ _ acc,
          parse_generics_acc _ (parse_undeclared _ cap [])]
        simp [List.append_assoc]
    | none =>
      cases hr : scanHdr "routine".data msg with
      | some cap2 => exact parse_undeclared_acc _ _ acc
      | none => exact parse_generics_acc _ acc

end Server

namespace Client

theorem parseUndeclared_acc (ty lines : List Char) (acc : List Diagnostic) :
    parseUndeclared ty lines acc = acc ++ parseUndeclared ty lines [] :=
  undeclaredGo_acc ty (splitRN lines) acc

theorem parseMissingLibs_acc (lib dd paths : List Char) (acc : List Diagnostic) :
    parseMissingLibs lib dd paths acc = acc ++ parseMissingLibs lib dd paths [] := by
  simp [parseMissingLibs]

theorem parseGenerics_acc (msg : List Char) (acc : List Diagnostic) :
    parseGenerics msg acc = acc ++ parseGenerics msg [] := by
  cases hs : scanGeneric (stripBanner msg) with
  | none => simp [parseGenerics, hs]
  | some r =>
    obtain ⟨s, f, dd, c, len⟩ := r
    simp [parseGenerics, hs]

theorem clientErrorMessage_acc (msg : List Char) (acc : List Diagnostic) :
    parseErrorMessage msg acc = acc ++ parseErrorMessage msg [] := by
  rw [parseErrorMessage, parseErrorMessage]
  cases hm : scanMissing msg with
  | some r =>
    obtain ⟨lib, dd, paths⟩ := r
    exact parseMissingLibs_acc lib dd paths acc
  | none =>
    cases hn : scanHdr "name".data msg with
    | some cap =>
      cases hr : scanHdr "routine".data msg with
      | some cap2 =>
        simp only []
        rw [parseUndeclared_acc _ _ acc, parseUndeclared_acc _ cap2 (acc ++ _),
          parseUndeclared_acc _ cap2 (parseUndeclared _ cap [])]
        simp [List.append_assoc]
      | none =>
        simp only []
        rw [parseGenerics_acc _ (parseUndeclared _ cap acc),
          parseUndeclared_acc _ _ acc,
          parseGenerics_acc _ (parseUndeclared _ cap [])]
        simp [List.append_assoc]
    | none =>
      cases hr : scanHdr "routine".data msg with
      | some cap2 => exact parseUndeclared_acc _ _ acc
      | none => exact parseGenerics_acc _ acc

end Client

/-! ### Invariants of every pushed diagnostic -/

/-- The properties every push site of both copies establishes: severity
`Error`, source `perl6`, characters 0–1000, a single line, and a line
number that is at least `-1` (it is `+digits - 1` or the constant 0). -/
def goodDiag (d : Diagnostic) : Prop :=
  d.severity = .Error ∧ d.source = perlL ∧ d.startChar = 0 ∧ d.endChar = 1000 ∧
    d.startLine = d.endLine ∧ -1 ≤ d.startLine

theorem undeclDiag_good (ty name dd advice : List Char) :
    goodDiag (undeclDiag ty name dd advice) := by
  refine ⟨rfl, rfl, rfl, rfl, rfl, ?_⟩
  simp [undeclDiag]

theorem undeclaredGo_mem (ty : List Char) :
    ∀ (ls : List (List Char)) (acc : List Diagnostic) {d : Diagnostic},
      d ∈ undeclaredGo ty ls acc → d ∈ acc ∨ goodDiag d := by
  intro ls
  induction ls with
  | nil => intro acc d h; exact Or.inl h
  | cons line rest ih =>
    intro acc d h
    cases hm : matchUndeclLine line with
    | none =>
      rw [undeclaredGo, hm] at h
      exact Or.inl h
    | some p =>
      obtain ⟨name, dd, advice⟩ := p
      simp only [undeclaredGo, hm] at h
      rcases ih _ h with hin | hg
      · rcases List.mem_append.mp hin with hin | hin
        · exact Or.inl hin
        · rcases List.mem_singleton.mp hin with rfl
          exact Or.inr (undeclDiag_good ty name dd advice)
      · exact Or.inr hg

namespace Server

theorem parse_undeclared_mem {ty lines : List Char} {acc : List Diagnostic} {d : Diagnostic}
    (h : d ∈ parse_undeclared ty lines acc) : d ∈ acc ∨ goodDiag d :=
  undeclaredGo_mem ty (splitRN lines) acc h

theorem parse_missing_libs_mem {lib dd paths : List Char} {acc : List Diagnostic}
    {d : Diagnostic} (h : d ∈ parse_missing_libs lib dd paths acc) : d ∈ acc ∨ goodDiag d := by
  rcases List.mem_append.mp h with hin | hin
  · exact Or.inl hin
  · rcases List.mem_singleton.mp hin with rfl
    refine Or.inr ⟨rfl, rfl, rfl, rfl, rfl, ?_⟩
    simp

theorem parse_generic_single_mem {msg : List Char} {acc : List Diagnostic} {d : Diagnostic}
    (h : d ∈ parse_generic_single msg acc) : d ∈ acc ∨ goodDiag d := by
  rw [parse_generic_single] at h
  cases hs : scanGeneric msg with
  | none => rw [hs] at h; exact Or.inl h
  | some r =>
    obtain ⟨s, f, dd, c, len⟩ := r
    simp only [hs] at h
    rcases List.mem_append.mp h with hin | hin
    · exact Or.inl hin
    · rcases List.mem_singleton.mp hin with rfl
      refine Or.inr ⟨rfl, rfl, rfl, rfl, rfl, ?_⟩
      simp

theorem pgLoopF_mem :
    ∀ (fuel : Nat) (text : List Char) (acc : List Diagnostic) {d : Diagnostic},
      d ∈ pgLoopF fuel text acc → d ∈ acc ∨ goodDiag d := by
  intro fuel
  induction fuel with
  | zero => intro text acc d h; exact Or.inl h
  | succ f ih =>
    intro text acc d h
    cases hs : scanGeneric text with
    | none =>
      simp only [pgLoopF, hs] at h
      exact Or.inl h
    | some r =>
      obtain ⟨s, ff, dd, c, len⟩ := r
      simp only [pgLoopF, hs] at h
      rcases ih _ _ h with hin | hg
      · exact parse_generic_single_mem hin
      · exact Or.inr hg

theorem parseErrorMessage_mem {msg : List Char} {d : Diagnostic}
    (h : d ∈ parseErrorMessage msg []) : goodDiag d := by
  rw [parseErrorMessage] at h
  cases hm : scanMissing msg with
  | some r =>
    obtain ⟨lib, dd, paths⟩ := r
    rw [hm] at h
    rcases parse_missing_libs_mem h with hin | hg
    · exact absurd hin (List.not_mem_nil d)
    · exact hg
  | none =>
    rw [hm] at h
    have hstep : ∀ (acc : List Diagnostic), (∀ x ∈ acc, goodDiag x) →
        d ∈ (match scanHdr "routine".data msg with
             | some cap => parse_undeclared "routine".data cap acc
             | none => parse_generics msg acc) → goodDiag d := by
      intro acc hacc hmem
      cases hr : scanHdr "routine".data msg with
      | some cap =>
        rw [hr] at hmem
        rcases parse_undeclared_mem hmem with hin | hg
        · exact hacc d hin
        · exact hg
      | none =>
        rw [hr] at hmem
        rcases pgLoopF_mem _ _ _ hmem with hin | hg
        · exact hacc d hin
        · exact hg
    cases hn : scanHdr "name".data msg with
    | some cap =>
      rw [hn] at h
      refine hstep _ ?_ h
      intro x hx
      rcases parse_undeclared_mem hx with hin | hg
      · exact absurd hin (List.not_mem_nil x)
      · exact hg
    | none =>
      rw [hn] at h
      refine hstep _ ?_ h
      intro x hx
      exact absurd hx (List.not_mem_nil x)

end Server

namespace Client

theorem parseUndeclared_mem {ty lines : List Char} {acc : List Diagnostic} {d : Diagnostic}
    (h : d ∈ parseUndeclared ty lines acc) : d ∈ acc ∨ goodDiag d :=
  undeclaredGo_mem ty (splitRN lines) acc h

theorem parseMissingLibs_mem {lib dd paths : List Char} {acc : List Diagnostic}
    {d : Diagnostic} (h : d ∈ parseMissingLibs lib dd paths acc) : d ∈ acc ∨ goodDiag d := by
  rcases List.mem_append.mp h with hin | hin
  · exact Or.inl hin
  · rcases List.mem_singleton.mp hin with rfl
    refine Or.inr ⟨rfl, rfl, rfl, rfl, rfl, ?_⟩
    simp

theorem parseGenerics_mem {msg : List Char} {acc : List Diagnostic} {d : Diagnostic}
    (h : d ∈ parseGenerics msg acc) : d ∈ acc ∨ goodDiag d := by
  rw [parseGenerics] at h
  cases hs : scanGeneric (stripBanner msg) with
  | none =>
    simp only [hs] at h
    rcases List.mem_append.mp h with hin | hin
    · exact Or.inl hin
    · rcases List.mem_singleton.mp hin with rfl
      exact Or.inr ⟨rfl, rfl, rfl, rfl, rfl, by norm_num⟩
  | some r =>
    obtain ⟨s, f, dd, c, len⟩ := r
    simp only [hs] at h
    rcases List.mem_append.mp h with hin | hin
    · exact Or.inl hin
    · rcases List.mem_singleton.mp hin with rfl
      refine Or.inr ⟨rfl, rfl, rfl, rfl, rfl, ?_⟩
      simp

theorem clientErrorMessage_mem {msg : List Char} {d : Diagnostic}
    (h : d ∈ parseErrorMessage msg []) : goodDiag d := by
  rw [parseErrorMessage] at h
  cases hm : scanMissing msg with
  | some r =>
    obtain ⟨lib, dd, paths⟩ := r
    rw [hm] at h
    rcases parseMissingLibs_mem h with hin | hg
    · exact absurd hin (List.not_mem_nil d)
    · exact hg
  | none =>
    rw [hm] at h
    have hstep : ∀ (acc : List Diagnostic), (∀ x ∈ acc, goodDiag x) →
        d ∈ (match scanHdr "routine".data msg with
             | some cap => parseUndeclared "routine".data cap acc
             | none => parseGenerics msg acc) → goodDiag d := by
      intro acc hacc hmem
      cases hr : scanHdr "routine".data msg with
      | some cap =>
        rw [hr] at hmem
        rcases parseUndeclared_mem hmem with hin | hg
        · exact hacc d hin
        · exact hg
      | none =>
        rw [hr] at hmem
        rcases parseGenerics_mem hmem with hin | hg
        · exact hacc d hin
        · exact hg
    cases hn : scanHdr "name".data msg with
    | some cap =>
      rw [hn] at h
      refine hstep _ ?_ h
      intro x hx
      rcases parseUndeclared_mem hx with hin | hg
      · exact absurd hin (List.not_mem_nil x)
      · exact hg
    | none =>
      rw [hn] at h
      refine hstep _ ?_ h
      intro x hx
      exact absurd hx (List.not_mem_nil x)

end Client

/-! ### Remaining small lemmas -/

theorem matchGenericAt_singleton (c : Char) : matchGenericAt [c] = none := by
  by_cases h : notTerm c = true
  · have htw : List.dropWhile notTerm [c] = [] := by
      rw [List.dropWhile_cons_of_pos h]; rfl
    rw [matchGenericAt, htw]
    rfl
  · have htw : List.dropWhile notTerm [c] = [c] :=
      List.dropWhile_cons_of_neg h
    rcases notTerm_false_elim (Bool.not_eq_true _ ▸ h) with rfl | rfl
    · rw [matchGenericAt, htw]
      simp [nlSplit, dropPrefixQ, atL_eq]
    · rw [matchGenericAt, htw]
      simp [nlSplit]

theorem scanGeneric_singleton (c : Char) : scanGeneric [c] = none := by
  simp [scanGeneric, matchGenericAt_singleton, scanGeneric_nil]

theorem undeclaredGo_eq (ty : List Char) :
    ∀ (ls : List (List Char)) (acc : List Diagnostic),
      undeclaredGo ty ls acc =
        acc ++ (ls.takeWhile (fun l => (matchUndeclLine l).isSome)).filterMap
          (fun l => (matchUndeclLine l).map (fun p => undeclDiag ty p.1 p.2.1 p.2.2)) := by
  intro ls
  induction ls with
  | nil => intro acc; simp [undeclaredGo]
  | cons line rest ih =>
    intro acc
    cases hm : matchUndeclLine line with
    | none =>
      rw [undeclaredGo, hm]
      rw [List.takeWhile_cons_of_neg (by simp [hm])]
      simp
    | some p =>
      obtain ⟨name, dd, advice⟩ := p
      simp only [undeclaredGo, hm]
      rw [List.takeWhile_cons_of_pos (by simp [hm]),
        ih (acc ++ [undeclDiag ty name dd advice])]
      simp [List.filterMap_cons, hm]

/-! ### The server generic loop on a two-block text -/

theorem Server.pgLoopF_twoBlocks
    {f1 file1 d1 c1 f2 file2 d2 c2 : List Char}
    (hf1 : f1.all notTerm = true) (hfile1 : file1.all notTerm = true)
    (hc1 : c1.all notTerm = true) (hd1 : d1 ≠ []) (hdd1 : d1.all Char.isDigit = true)
    (hf2 : f2.all notTerm = true) (hfile2 : file2.all notTerm = true)
    (hc2 : c2.all notTerm = true) (hd2 : d2 ≠ []) (hdd2 : d2.all Char.isDigit = true) :
    Server.pgLoopF (blockL f1 file1 d1 c1 ++ '\n' :: blockL f2 file2 d2 c2).length
      (blockL f1 file1 d1 c1 ++ '\n' :: blockL f2 file2 d2 c2) [] =
      [⟨.Error, (digitsToNat d1 : Int) - 1, 0, (digitsToNat d1 : Int) - 1, 1000, f1, perlL⟩,
       ⟨.Error, (digitsToNat d2 : Int) - 1, 0, (digitsToNat d2 : Int) - 1, 1000, f2, perlL⟩] := by
  have hm1 : matchGenericAt (blockL f1 file1 d1 c1 ++ '\n' :: blockL f2 file2 d2 c2) =
      some (f1, d1, c1, (blockL f1 file1 d1 c1).length) := by
    rw [blockL_append]
    exact matchGenericAt_structured ('\n' :: blockL f2 file2 d2 c2)
      hf1 hfile1 hc1 hd1 hdd1 (Or.inr ⟨_, rfl⟩)
  have hscan1 : scanGeneric (blockL f1 file1 d1 c1 ++ '\n' :: blockL f2 file2 d2 c2) =
      some (0, f1, d1, c1, (blockL f1 file1 d1 c1).length) :=
    scanGeneric_of_matchAt hm1
  have hmB1 : matchGenericAt (blockL f1 file1 d1 c1) =
      some (f1, d1, c1, (blockL f1 file1 d1 c1).length) := by
    have h := @matchGenericAt_structured f1 file1 d1 c1 [] hf1 hfile1 hc1 hd1 hdd1 (Or.inl rfl)
    rwa [List.append_nil] at h
  have hmB2 : matchGenericAt (blockL f2 file2 d2 c2) =
      some (f2, d2, c2, (blockL f2 file2 d2 c2).length) := by
    have h := @matchGenericAt_structured f2 file2 d2 c2 [] hf2 hfile2 hc2 hd2 hdd2 (Or.inl rfl)
    rwa [List.append_nil] at h
  have hscanB2 : scanGeneric (blockL f2 file2 d2 c2) =
      some (0, f2, d2, c2, (blockL f2 file2 d2 c2).length) :=
    scanGeneric_of_matchAt hmB2
  have hmsep : matchGenericAt ('\n' :: blockL f2 file2 d2 c2) = none := by
    rw [blockL]
    exact matchGenericAt_sepNl_none _ hf2
  have hscansep : scanGeneric ('\n' :: blockL f2 file2 d2 c2) =
      some (1, f2, d2, c2, (blockL f2 file2 d2 c2).length) := by
    simp [scanGeneric, hmsep, hscanB2, shiftFC]
  have hsingle1 : Server.parse_generic_single (blockL f1 file1 d1 c1) [] =
      [⟨.Error, (digitsToNat d1 : Int) - 1, 0, (digitsToNat d1 : Int) - 1, 1000, f1, perlL⟩] := by
    simp [Server.parse_generic_single, scanGeneric_of_matchAt hmB1]
  rw [Server.pgLoopF_step _ (le_refl _)]
  simp only [hscan1, List.drop_zero, List.take_left, List.drop_left]
  rw [hsingle1]
  rw [Server.pgLoopF_step _ (le_refl _)]
  simp only [hscansep]
  have hdrop1 : ('\n' :: blockL f2 file2 d2 c2).drop 1 = blockL f2 file2 d2 c2 := rfl
  rw [hdrop1, List.take_length]
  have hsingle2 : Server.parse_generic_single (blockL f2 file2 d2 c2)
      [⟨.Error, (digitsToNat d1 : Int) - 1, 0, (digitsToNat d1 : Int) - 1, 1000, f1, perlL⟩] =
      [⟨.Error, (digitsToNat d1 : Int) - 1, 0, (digitsToNat d1 : Int) - 1, 1000, f1, perlL⟩,
       ⟨.Error, (digitsToNat d2 : Int) - 1, 0, (digitsToNat d2 : Int) - 1, 1000, f2, perlL⟩] := by
    simp [Server.parse_generic_single, hscanB2]
  rw [hsingle2]
  have hlen3 : (('\n' :: blockL f2 file2 d2 c2).drop (blockL f2 file2 d2 c2).length).length = 1 := by
    rw [List.length_drop]
    simp
  obtain ⟨ch, hch⟩ := List.length_eq_one.mp hlen3
  rw [hch]
  rw [Server.pgLoopF_step _ (le_refl _)]
  simp [scanGeneric_singleton]

/-! ### The claims -/

def c1In : List Char :=
  "Undeclared names:\n  foo used at line 5\n  bar used at line 9 (did you mean 'baz'?)\n".data

def c1DiagFoo : Diagnostic :=
  ⟨.Error, 4, 0, 4, 1000, "name foo is not declared".data, perlL⟩

def c1DiagBar : Diagnostic :=
  ⟨.Error, 8, 0, 8, 1000, "name bar is not declared (did you mean 'baz'?)".data, perlL⟩

/-- Claim C1, counterexample: on the claimed input the client copy of
`parseErrorMessage` does not stop at the two undeclared-name
diagnostics; because the names branch does not return, the generic
fallback appends a third, line-0 diagnostic carrying the whole text. -/
theorem claim_C1_counterexample :
    Client.parseErrorMessage c1In [] ≠ [c1DiagFoo, c1DiagBar] ∧
    (Client.parseErrorMessage c1In []).length = 3 := by
  constructor
  · decide
  · decide

/-- Claim C1 (amended): on the input
"Undeclared names:\n  foo used at line 5\n  bar used at line 9 (did you
mean 'baz'?)\n" the server.ts extractor produces exactly the two claimed
diagnostics (line 4 / line 8 with the claimed messages); the client-copy
extractor produces those two followed by a generic fallback diagnostic
at line 0 whose message is the whole input text. -/
theorem claim_C1_theorem :
    Server.parseErrorMessage c1In [] = [c1DiagFoo, c1DiagBar] ∧
    Client.parseErrorMessage c1In [] =
      [c1DiagFoo, c1DiagBar, ⟨.Error, 0, 0, 0, 1000, c1In, perlL⟩] := by
  constructor
  · decide
  · decide

def c7In : List Char :=
  "Variable '$x' is not declared\nat /tmp/f.p6:12\n------> my $y = $x;".data

/-- Claim C7: for the generic block
"Variable '$x' is not declared\nat /tmp/f.p6:12\n------> my $y = $x;"
both copies of the extractor produce exactly one diagnostic with line 11
and message "Variable '$x' is not declared"; the caret-context snippet
is not part of the message. -/
theorem claim_C7_theorem :
    Server.parseErrorMessage c7In [] =
      [⟨.Error, 11, 0, 11, 1000, "Variable '$x' is not declared".data, perlL⟩] ∧
    Client.parseErrorMessage c7In [] =
      [⟨.Error, 11, 0, 11, 1000, "Variable '$x' is not declared".data, perlL⟩] := by
  constructor
  · decide
  · decide

/-- Claim C3, counterexample: "hello" matches none of the four shapes,
yet the server.ts extractor returns no diagnostic at all (its generic
branch loops over block matches and has no fallback), not the single
line-0 diagnostic the claim demands of the extractor. -/
theorem claim_C3_counterexample :
    scanMissing "hello".data = none ∧
    scanHdr "name".data "hello".data = none ∧
    scanHdr "routine".data "hello".data = none ∧
    scanGeneric (stripBanner "hello".data) = none ∧
    Server.parseErrorMessage "hello".data [] = [] := by
  refine ⟨by decide, by decide, by decide, by decide, by decide⟩

/-- Claim C3 (amended): for stderr text that matches neither the
missing-library shape nor an undeclared header, and whose banner-stripped
text contains no generic block, the client copy returns exactly one
diagnostic at line 0 whose message is the text with the first
"===SORRY...\n" banner line removed, while the server.ts copy returns no
diagnostic at all. -/
theorem claim_C3_theorem (msg : List Char)
    (hml : scanMissing msg = none) (hn : scanHdr "name".data msg = none)
    (hr : scanHdr "routine".data msg = none)
    (hg : scanGeneric (stripBanner msg) = none) :
    Client.parseErrorMessage msg [] =
      [⟨.Error, 0, 0, 0, 1000, stripBanner msg, perlL⟩] ∧
    Server.parseErrorMessage msg [] = [] := by
  constructor
  · rw [Client.parseErrorMessage]
    simp only [hml, hn, hr]
    simp [Client.parseGenerics, hg]
  · rw [Server.parseErrorMessage]
    simp only [hml, hn, hr]
    rw [Server.parse_generics, Server.pgLoopF_step _ (le_refl _)]
    simp [hg]

/-- Claim C3, witness: the amended claim applied to the free text
"hello". -/
theorem claim_C3_witness :
    Client.parseErrorMessage "hello".data [] =
      [⟨.Error, 0, 0, 0, 1000, stripBanner "hello".data, perlL⟩] ∧
    Server.parseErrorMessage "hello".data [] = [] :=
  claim_C3_theorem "hello".data (by decide) (by decide) (by decide) (by decide)

/-- Claim C4: whenever the missing-library regex matches stderr with
module `lib`, digits `dd` and search paths `paths`, both copies of the
extractor emit exactly one diagnostic, at line `+dd - 1`, with message
"Could not find <lib> in:\n<paths>"; no other shape contributes
(first match wins). -/
theorem claim_C4_theorem (msg lib dd paths : List Char)
    (h : scanMissing msg = some (lib, dd, paths)) :
    Server.parseErrorMessage msg [] =
      [⟨.Error, (digitsToNat dd : Int) - 1, 0, (digitsToNat dd : Int) - 1, 1000,
        couldL ++ lib ++ " in:\n".data ++ paths, perlL⟩] ∧
    Client.parseErrorMessage msg [] =
      [⟨.Error, (digitsToNat dd : Int) - 1, 0, (digitsToNat dd : Int) - 1, 1000,
        couldL ++ lib ++ " in:\n".data ++ paths, perlL⟩] := by
  constructor
  · rw [Server.parseErrorMessage]
    simp [h, Server.parse_missing_libs]
  · rw [Client.parseErrorMessage]
    simp [h, Client.parseMissingLibs]

/-- Claim C4, witness: a concrete missing-library stderr text. -/
theorem claim_C4_witness :
    Server.parseErrorMessage "Could not find Foo::Bar at line 4 in:\n/a/b\n/c/d".data [] =
      [⟨.Error, 3, 0, 3, 1000, "Could not find Foo::Bar in:\n/a/b\n/c/d".data, perlL⟩] ∧
    Client.parseErrorMessage "Could not find Foo::Bar at line 4 in:\n/a/b\n/c/d".data [] =
      [⟨.Error, 3, 0, 3, 1000, "Could not find Foo::Bar in:\n/a/b\n/c/d".data, perlL⟩] := by
  have h := claim_C4_theorem "Could not find Foo::Bar at line 4 in:\n/a/b\n/c/d".data
    "Foo::Bar".data "4".data "/a/b\n/c/d".data (by decide)
  exact ⟨by rw [h.1]; decide, by rw [h.2]; decide⟩

def c5In : List Char := "Undeclared names:\n  foo used at line 0\n".data

/-- Claim C5, counterexample: the compiler text "…used at line 0" makes
the extractor compute `+"0" - 1 = -1`, so the only diagnostic of the
batch has a negative line, refuting `line >= 0` over all inputs. -/
theorem claim_C5_counterexample :
    (Server.parseErrorMessage c5In []).map Diagnostic.startLine = [-1] := by
  decide

/-- Claim C5 (amended): every diagnostic either copy of the extractor
emits has severity Error and source "perl6", and its line is at least
-1; the bound -1 is reached exactly when the stderr text reports
"line 0", so `line >= 0` holds only for texts whose reported line
numbers are positive. -/
theorem claim_C5_theorem (msg : List Char) (d : Diagnostic)
    (h : d ∈ Server.parseErrorMessage msg [] ∨ d ∈ Client.parseErrorMessage msg []) :
    d.severity = .Error ∧ d.source = perlL ∧ -1 ≤ d.startLine := by
  rcases h with h | h
  · obtain ⟨h1, h2, _, _, _, h6⟩ := Server.parseErrorMessage_mem h
    exact ⟨h1, h2, h6⟩
  · obtain ⟨h1, h2, _, _, _, h6⟩ := Client.clientErrorMessage_mem h
    exact ⟨h1, h2, h6⟩

/-- Claim C5, witness: the amended claim applied to the fallback
diagnostic the client copy produces for "oops". -/
theorem claim_C5_witness :
    (⟨.Error, 0, 0, 0, 1000, "oops".data, perlL⟩ : Diagnostic).severity = .Error ∧
    (⟨.Error, 0, 0, 0, 1000, "oops".data, perlL⟩ : Diagnostic).source = perlL ∧
    -1 ≤ (⟨.Error, 0, 0, 0, 1000, "oops".data, perlL⟩ : Diagnostic).startLine :=
  claim_C5_theorem "oops".data ⟨.Error, 0, 0, 0, 1000, "oops".data, perlL⟩
    (Or.inr (by decide))

def c6In : List Char :=
  "Could not find Foo at line 1 in:\nUndeclared names:\n  a used at line 2\nUndeclared routines:\n  b used at line 3\n".data

/-- Claim C6, counterexample: a stderr text that contains both an
"Undeclared names:" and an "Undeclared routines:" block but also
matches the higher-priority missing-library shape; the batch then holds
only the missing-library diagnostic and nothing derived from either
block, refuting the claim over all texts containing the two blocks. -/
theorem claim_C6_counterexample :
    (scanHdr "name".data c6In).isSome = true ∧
    (scanHdr "routine".data c6In).isSome = true ∧
    Server.parseErrorMessage c6In [] =
      [⟨.Error, 0, 0, 0, 1000,
        "Could not find Foo in:\nUndeclared names:\n  a used at line 2\nUndeclared routines:\n  b used at line 3\n".data,
        perlL⟩] := by
  refine ⟨by decide, by decide, by decide⟩

/-- Claim C6 (amended): for every stderr text that contains both an
undeclared-names and an undeclared-routines header and does not match
the higher-priority missing-library shape, both copies of the extractor
produce exactly the names-block diagnostics followed by the
routines-block diagnostics. -/
theorem claim_C6_theorem (msg capN capR : List Char)
    (hml : scanMissing msg = none)
    (hn : scanHdr "name".data msg = some capN)
    (hr : scanHdr "routine".data msg = some capR) :
    Server.parseErrorMessage msg [] =
      Server.parse_undeclared "name".data capN [] ++
        Server.parse_undeclared "routine".data capR [] ∧
    Client.parseErrorMessage msg [] =
      Client.parseUndeclared "name".data capN [] ++
        Client.parseUndeclared "routine".data capR [] := by
  constructor
  · rw [Server.parseErrorMessage]
    simp only [hml, hn, hr]
    exact Server.parse_undeclared_acc _ _ _
  · rw [Client.parseErrorMessage]
    simp only [hml, hn, hr]
    exact Client.parseUndeclared_acc _ _ _

def c6WitnessIn : List Char :=
  "Undeclared names:\n  a used at line 2\nUndeclared routines:\n  b used at line 3\n".data

/-- Claim C6, witness: on a concrete text with both blocks the batch is
the name diagnostic followed by the routine diagnostic. -/
theorem claim_C6_witness :
    Server.parseErrorMessage c6WitnessIn [] =
      Server.parse_undeclared "name".data
        "  a used at line 2\nUndeclared routines:\n  b used at line 3\n".data [] ++
      Server.parse_undeclared "routine".data "  b used at line 3\n".data [] ∧
    Client.parseErrorMessage c6WitnessIn [] =
      Client.parseUndeclared "name".data
        "  a used at line 2\nUndeclared routines:\n  b used at line 3\n".data [] ++
      Client.parseUndeclared "routine".data "  b used at line 3\n".data [] :=
  claim_C6_theorem c6WitnessIn
    "  a used at line 2\nUndeclared routines:\n  b used at line 3\n".data
    "  b used at line 3\n".data (by decide) (by decide) (by decide)

/-- Claim C8: parsing an undeclared-identifiers list emits exactly one
diagnostic per line of the maximal prefix of split lines matching the
"<identifier> used at line <N>" sub-pattern, and nothing for any line at
or after the first non-matching line — in both copies. -/
theorem claim_C8_theorem (ty lines : List Char) (acc : List Diagnostic) :
    Server.parse_undeclared ty lines acc =
      acc ++ ((splitRN lines).takeWhile (fun l => (matchUndeclLine l).isSome)).filterMap
        (fun l => (matchUndeclLine l).map (fun p => undeclDiag ty p.1 p.2.1 p.2.2)) ∧
    Client.parseUndeclared ty lines acc =
      acc ++ ((splitRN lines).takeWhile (fun l => (matchUndeclLine l).isSome)).filterMap
        (fun l => (matchUndeclLine l).map (fun p => undeclDiag ty p.1 p.2.1 p.2.2)) :=
  ⟨undeclaredGo_eq ty (splitRN lines) acc, undeclaredGo_eq ty (splitRN lines) acc⟩

/-- Claim C9: both copies of the extractor are pure functions of the
stderr text: two runs from an empty batch give the same batch, and a run
from any prior batch only appends that same run's output, so no hidden
state survives between runs. -/
theorem claim_C9_theorem (msg : List Char) (acc : List Diagnostic) :
    Server.parseErrorMessage msg [] = Server.parseErrorMessage msg [] ∧
    Client.parseErrorMessage msg [] = Client.parseErrorMessage msg [] ∧
    Server.parseErrorMessage msg acc = acc ++ Server.parseErrorMessage msg [] ∧
    Client.parseErrorMessage msg acc = acc ++ Client.parseErrorMessage msg [] :=
  ⟨rfl, rfl, Server.parseErrorMessage_acc msg acc, Client.clientErrorMessage_acc msg acc⟩

/-- Claim C10: every diagnostic either copy ever emits highlights one
whole line: character range 0 to 1000 with equal start and end lines. -/
theorem claim_C10_theorem (msg : List Char) (d : Diagnostic)
    (h : d ∈ Server.parseErrorMessage msg [] ∨ d ∈ Client.parseErrorMessage msg []) :
    d.startChar = 0 ∧ d.endChar = 1000 ∧ d.startLine = d.endLine := by
  rcases h with h | h
  · obtain ⟨_, _, h3, h4, h5, _⟩ := Server.parseErrorMessage_mem h
    exact ⟨h3, h4, h5⟩
  · obtain ⟨_, _, h3, h4, h5, _⟩ := Client.clientErrorMessage_mem h
    exact ⟨h3, h4, h5⟩

/-- Claim C10, witness: the claim applied to the server diagnostic for a
concrete generic block. -/
theorem claim_C10_witness :
    (⟨.Error, 1, 0, 1, 1000, "Variable y is undefined".data, perlL⟩ : Diagnostic).startChar = 0 ∧
    (⟨.Error, 1, 0, 1, 1000, "Variable y is undefined".data, perlL⟩ : Diagnostic).endChar = 1000 ∧
    (⟨.Error, 1, 0, 1, 1000, "Variable y is undefined".data, perlL⟩ : Diagnostic).startLine =
      (⟨.Error, 1, 0, 1, 1000, "Variable y is undefined".data, perlL⟩ : Diagnostic).endLine :=
  claim_C10_theorem "Variable y is undefined\nat f:2\n------> y".data
    ⟨.Error, 1, 0, 1, 1000, "Variable y is undefined".data, perlL⟩ (Or.inl (by decide))

def c2In : List Char :=
  "f1 text\nat /tmp/a.p6:3\n------> ctx one\nf2 text\nat /tmp/a.p6:7\n------> ctx two".data

/-- Claim C2, counterexample: on a text of two concatenated generic
blocks the client copy of the extractor returns a single diagnostic (its
generic branch uses only the first regex match), not two. -/
theorem claim_C2_counterexample :
    (Client.parseErrorMessage c2In []).length = 1 ∧
    Client.parseErrorMessage c2In [] =
      [⟨.Error, 2, 0, 2, 1000, "f1 text".data, perlL⟩] := by
  refine ⟨by decide, by decide⟩

/-- Claim C2 (amended): for every stderr text made of two concatenated
well-formed generic blocks (finding, file and context free of line
terminators, a non-empty line number) that matches no higher-priority
shape and holds no banner line, the server.ts extractor returns exactly
two diagnostics, in block order, each with line `+N - 1` of its own
block and its own finding as message; the client copy returns only the
first block's diagnostic. -/
theorem claim_C2_theorem
    (f1 file1 d1 c1 f2 file2 d2 c2 msg : List Char)
    (hf1 : f1.all notTerm = true) (hfile1 : file1.all notTerm = true)
    (hc1 : c1.all notTerm = true) (hd1 : d1 ≠ []) (hdd1 : d1.all Char.isDigit = true)
    (hf2 : f2.all notTerm = true) (hfile2 : file2.all notTerm = true)
    (hc2 : c2.all notTerm = true) (hd2 : d2 ≠ []) (hdd2 : d2.all Char.isDigit = true)
    (hmsg : msg = blockL f1 file1 d1 c1 ++ '\n' :: blockL f2 file2 d2 c2)
    (hnb : stripBanner msg = msg)
    (hml : scanMissing msg = none)
    (hn : scanHdr "name".data msg = none)
    (hr : scanHdr "routine".data msg = none) :
    Server.parseErrorMessage msg [] =
      [⟨.Error, (digitsToNat d1 : Int) - 1, 0, (digitsToNat d1 : Int) - 1, 1000, f1, perlL⟩,
       ⟨.Error, (digitsToNat d2 : Int) - 1, 0, (digitsToNat d2 : Int) - 1, 1000, f2, perlL⟩] ∧
    Client.parseErrorMessage msg [] =
      [⟨.Error, (digitsToNat d1 : Int) - 1, 0, (digitsToNat d1 : Int) - 1, 1000, f1,
        perlL⟩] := by
  subst hmsg
  have hm1 : matchGenericAt (blockL f1 file1 d1 c1 ++ '\n' :: blockL f2 file2 d2 c2) =
      some (f1, d1, c1, (blockL f1 file1 d1 c1).length) := by
    rw [blockL_append]
    exact matchGenericAt_structured ('\n' :: blockL f2 file2 d2 c2)
      hf1 hfile1 hc1 hd1 hdd1 (Or.inr ⟨_, rfl⟩)
  have hscan1 : scanGeneric (blockL f1 file1 d1 c1 ++ '\n' :: blockL f2 file2 d2 c2) =
      some (0, f1, d1, c1, (blockL f1 file1 d1 c1).length) :=
    scanGeneric_of_matchAt hm1
  constructor
  · rw [Server.parseErrorMessage]
    simp only [hml, hn, hr]
    rw [Server.parse_generics, hnb]
    exact Server.pgLoopF_twoBlocks hf1 hfile1 hc1 hd1 hdd1 hf2 hfile2 hc2 hd2 hdd2
  · rw [Client.parseErrorMessage]
    simp only [hml, hn, hr]
    rw [Client.parseGenerics, hnb]
    simp [hscan1]

/-- Claim C2, witness: the amended claim at a concrete two-block text. -/
theorem claim_C2_witness :
    Server.parseErrorMessage c2In [] =
      [⟨.Error, 2, 0, 2, 1000, "f1 text".data, perlL⟩,
       ⟨.Error, 6, 0, 6, 1000, "f2 text".data, perlL⟩] ∧
    Client.parseErrorMessage c2In [] =
      [⟨.Error, 2, 0, 2, 1000, "f1 text".data, perlL⟩] := by
  have h := claim_C2_theorem "f1 text".data "/tmp/a.p6".data "3".data "ctx one".data
    "f2 text".data "/tmp/a.p6".data "7".data "ctx two".data c2In
    (by decide) (by decide) (by decide) (by decide) (by decide)
    (by decide) (by decide) (by decide) (by decide) (by decide)
    (by decide) (by decide) (by decide) (by decide) (by decide)
  exact ⟨by rw [h.1]; decide, by rw [h.2]; decide⟩
